import Mathlib

/-!
Verification development for the search-and-aggregation core of
FirstIssueSearch (src/search.py).

The embedding models:
- `build_label_query` (src/search.py lines 76-80)
- `iso_date_days_ago` (lines 82-85): dates are modelled as day counts
  (days since an epoch); the Python code subtracts a whole number of days
  from the current UTC datetime and takes the date, which at day
  granularity is exactly subtraction on day counts.
- the query assembly in `search_open_beginner_issues` (lines 112-133)
- the per-issue aggregation step (lines 144-178) over an ordered
  association list, which models the insertion-ordered Python dict
- the pagination loop (lines 137-184), with the remote endpoint modelled
  as a function from page number to a page response
- the ranking sort in `_fetch_thread` (lines 539-552): the Python
  `list.sort` with a key and `reverse=True` is the stable descending
  sort, modelled here by a stable insertion sort.
-/

/-- An issue record as consumed by the aggregation loop: the three fields
the code reads from each JSON item (lines 145, 169, 175). Absent JSON
keys are `none`. -/
structure Issue where
  repository_url : Option String
  updated_at : Option String
  html_url : Option String
deriving DecidableEq

/-- The `repo_info` record built at lines 165-171. -/
structure RepoInfo where
  full_name : String
  html_url : String
  description : String
  pushed_at : String
  fork : Bool
deriving DecidableEq

/-- The per-repository aggregate value stored in `repos_dict`
(lines 172-176). -/
structure RepoData where
  repo_info : RepoInfo
  issues_count : Nat
  sample_issue : Option String
deriving DecidableEq

/-- The `repos_dict` mapping: a Python dict keyed by full name, which preserves
insertion order; modelled as an ordered association list. -/
abbrev ReposDict := List (String × RepoData)

/-- The keys of the dict, in insertion order. -/
def dict_keys (d : ReposDict) : List String :=
  d.map Prod.fst

/-- Python `str.split(sep)` on a list of characters: no collapsing of
adjacent separators, and the empty string yields one empty field. -/
def py_split (sep : Char) : List Char → List (List Char)
  | [] => [[]]
  | c :: cs =>
    match py_split sep cs with
    | [] => [[c]]
    | g :: gs => if c = sep then [] :: g :: gs else (c :: g) :: gs

/-- Python `repo_url.split("/")` (line 150). -/
def split_on_slash (s : String) : List String :=
  (py_split '/' s.data).map (fun g => String.mk g)

/-- Python `str.strip()`: drop leading and trailing whitespace. -/
def py_strip (s : String) : String :=
  String.mk (((s.data.dropWhile Char.isWhitespace).reverse.dropWhile Char.isWhitespace).reverse)

/-- Lines 76-80: label query, first label only; the default clause when
the list is empty. -/
def build_label_query (labels : List String) : String :=
  match labels with
  | [] => "label:\"good first issue\""
  | l :: _ => "label:\"" ++ l ++ "\""

/-- Lines 82-85: the date N days ago. `today` is the current UTC date as
a day count; subtracting a whole-day timedelta and taking the date is
subtraction on day counts. -/
def iso_date_days_ago (today days : Nat) : Nat :=
  today - days

/-- Lines 112-123: the `query_parts` list before the language clause:
the four base parts, then the stripped custom terms when nonblank. -/
def base_parts (today days : Nat) (labels : List String) (custom_terms : String) : List String :=
  if py_strip custom_terms ≠ "" then
    ["is:issue", "is:open", build_label_query labels,
      "updated:>" ++ toString (iso_date_days_ago today days)] ++ [py_strip custom_terms]
  else
    ["is:issue", "is:open", build_label_query labels,
      "updated:>" ++ toString (iso_date_days_ago today days)]

/-- Lines 112-131: the full `query_parts` list: the base parts, then the
language clause (absent, single, or a parenthesized OR-group). -/
def query_parts (languages : List String) (today days : Nat) (labels : List String) (custom_terms : String) : List String :=
  if languages.isEmpty then
    base_parts today days labels custom_terms
  else if languages.length = 1 then
    base_parts today days labels custom_terms ++ ["language:" ++ languages.headD ""]
  else
    base_parts today days labels custom_terms
      ++ ["(" ++ String.intercalate " OR " (languages.map (fun lang => "language:" ++ lang)) ++ ")"]

/-- Line 133: the query string is the parts joined by single spaces. -/
def build_query (languages : List String) (today days : Nat) (labels : List String) (custom_terms : String) : String :=
  String.intercalate " " (query_parts languages today days labels custom_terms)

/-- Lines 150-156: parse owner/name out of a repository URL by splitting
on "/" and taking the last two segments; fewer than two segments means
the record is unusable. -/
def parse_full_name (repo_url : String) : Option String :=
  let parts := split_on_slash repo_url
  if 2 ≤ parts.length then
    some (parts.getD (parts.length - 2) "" ++ "/" ++ parts.getD (parts.length - 1) "")
  else
    none

/-- Lines 145-156: the full name derived from an issue record, or `none`
when the record is skipped (missing or empty URL at lines 145-147, or
too few segments at line 151). -/
def issue_full_name (issue : Issue) : Option String :=
  match issue.repository_url with
  | none => none
  | some url => if url = "" then none else parse_full_name url

/-- Lines 165-176: the fresh aggregate created on first sight of a
repository; the counter starts at 0 and is incremented by the shared
line 178. -/
def fresh_data (full : String) (issue : Issue) : RepoData :=
  { repo_info :=
      { full_name := full
        html_url := "https://github.com/" ++ full
        description := ""
        pushed_at := issue.updated_at.getD ""
        fork := false }
    issues_count := 0
    sample_issue := issue.html_url }

/-- Line 178: increment the counter stored under key `k`. -/
def incr_count (d : ReposDict) (k : String) : ReposDict :=
  d.map (fun p => if p.1 = k then (p.1, { p.2 with issues_count := p.2.issues_count + 1 }) else p)

/-- Lines 144-178: process one issue record into the dict: skip
unusable records, create a fresh aggregate on first sight, and bump the
counter. -/
def process_issue (d : ReposDict) (issue : Issue) : ReposDict :=
  match issue_full_name issue with
  | none => d
  | some full =>
    let d1 := if (d.lookup full).isSome then d else d ++ [(full, fresh_data full issue)]
    incr_count d1 full

/-- Lines 144-178 iterated over a sequence of issue records. -/
def aggregate_all (issues : List Issue) (d : ReposDict) : ReposDict :=
  issues.foldl process_issue d

/-- The aggregate mapping produced from a sequence of issue records,
starting from the empty dict of line 134. -/
def repos_dict_of (issues : List Issue) : ReposDict :=
  aggregate_all issues []

/-- Line 135: `per_page = 100`. -/
def per_page : Nat := 100

/-- A page response from the remote search endpoint: either a JSON body
whose `items` field holds the issue records, or a non-success status
(which `raise_for_status` at line 140 turns into an exception). -/
inductive PageResp where
  | ok (items : List Issue)
  | err (status : Nat)
deriving DecidableEq

/-- Lines 137-184: the pagination loop. `resp` models the endpoint for
the built query, `page` is the next page number, `fuel` the remaining
iterations of `range(1, max_pages + 1)`, `acc` the dict built so far.
Returns the list of pages requested, in order, together with either the
final dict or the status of the response that raised. The 200 ms
courtesy delay at line 183 has no observable effect in this model. -/
def search_loop (resp : Nat → PageResp) : Nat → Nat → ReposDict → List Nat × Except Nat ReposDict
  | _, 0, acc => ([], .ok acc)
  | page, fuel + 1, acc =>
    match resp page with
    | .err c => ([page], .error c)
    | .ok items =>
      let acc2 := aggregate_all items acc
      if items.length < per_page then
        ([page], .ok acc2)
      else
        let rest := search_loop resp (page + 1) fuel acc2
        (page :: rest.1, rest.2)

/-- Lines 106-185: the search starts at page 1 with an empty dict and at
most `max_pages` page requests. -/
def search_open_beginner_issues (resp : Nat → PageResp) (max_pages : Nat) : List Nat × Except Nat ReposDict :=
  search_loop resp 1 max_pages []

/-- Line 529: the application invokes the search with `max_pages = 10`. -/
def search10 (resp : Nat → PageResp) : List Nat × Except Nat ReposDict :=
  search_open_beginner_issues resp 10

/-- The items of one page, for describing what an `ok` search aggregated. -/
def page_items (resp : Nat → PageResp) (n : Nat) : List Issue :=
  match resp n with
  | .ok items => items
  | .err _ => []

/-- One row of `filtered_results` (lines 539-550). -/
structure ResultRow where
  full_name : String
  html_url : String
  description : String
  pushed_at : String
  fork : Bool
  beginner_issues_count : Nat
  sample_issue : Option String
deriving DecidableEq

/-- Lines 542-550: the row built from one dict entry. -/
def to_result_row (p : String × RepoData) : ResultRow :=
  { full_name := p.2.repo_info.full_name
    html_url := p.2.repo_info.html_url
    description := p.2.repo_info.description
    pushed_at := p.2.repo_info.pushed_at
    fork := p.2.repo_info.fork
    beginner_issues_count := p.2.issues_count
    sample_issue := p.2.sample_issue }

/-- Insert a row into an already sorted-descending list: it goes after
every row with a strictly larger count, and before rows whose count is
smaller than or equal to its own, so that inserting left-to-right keeps
ties in their original order. -/
def insert_desc (x : ResultRow) : List ResultRow → List ResultRow
  | [] => [x]
  | y :: ys =>
    if x.beginner_issues_count < y.beginner_issues_count then
      y :: insert_desc x ys
    else
      x :: y :: ys

/-- Line 552: `filtered_results.sort(key=..., reverse=True)`. Python
sort is stable, and `reverse=True` keeps ties in input order, so the
result is the stable descending sort by the count: here realised as the
stable insertion sort. -/
def sort_results : List ResultRow → List ResultRow
  | [] => []
  | x :: rest => insert_desc x (sort_results rest)

/-- Lines 539-552: rows in dict insertion order, then the stable
descending sort. -/
def ranked_results (d : ReposDict) : List ResultRow :=
  sort_results (d.map to_result_row)

/-- Number of records in the sequence that aggregate under `name`. -/
def count_matching (issues : List Issue) (name : String) : Nat :=
  issues.countP (fun i => issue_full_name i == some name)

/-- The consecutive pages `p, p + 1, ..., p + k - 1`. -/
def pageRun (p k : Nat) : List Nat :=
  (List.range k).map (p + ·)

/-- The fixed-order query as worded by the spec sentence behind C6:
status tokens, label clause, updated-after clause, the free-text terms
clause as supplied, then the language clause. The terms clause is a
parameter so that the claimed (verbatim) and actual (stripped) readings
can be compared against `build_query`. -/
def spec_fixed_order_query (languages : List String) (today days : Nat) (labels : List String) (terms_clause : List String) : String :=
  String.intercalate " "
    (["is:issue", "is:open"]
      ++ [build_label_query labels]
      ++ ["updated:>" ++ toString (iso_date_days_ago today days)]
      ++ terms_clause
      ++ (match languages with
          | [] => []
          | [l] => ["language:" ++ l]
          | ls => ["(" ++ String.intercalate " OR " (ls.map (fun lang => "language:" ++ lang)) ++ ")"]))

/-- A result row with a given name and count, for concrete ranking
inputs. -/
def sample_row (name : String) (k : Nat) : ResultRow :=
  { full_name := name
    html_url := ""
    description := ""
    pushed_at := ""
    fork := false
    beginner_issues_count := k
    sample_issue := none }

/-- A concrete well-formed issue record for repository `o/r`. -/
def dup_issue : Issue :=
  { repository_url := some "o/r", updated_at := some "t", html_url := some "u" }

/-- The aggregate produced by seeing `dup_issue` twice. -/
def dup_entry : RepoData :=
  { repo_info :=
      { full_name := "o/r"
        html_url := "https://github.com/o/r"
        description := ""
        pushed_at := "t"
        fork := false }
    issues_count := 2
    sample_issue := some "u" }

/-- An issue for `o/r` seen first, with the earlier update stamp. -/
def early_issue : Issue :=
  { repository_url := some "o/r", updated_at := some "2024-01-01", html_url := some "u1" }

/-- An issue for `o/r` seen second, with a later update stamp. -/
def late_issue : Issue :=
  { repository_url := some "o/r", updated_at := some "2024-02-02", html_url := some "u2" }

/-- The aggregate the code builds from `[early_issue, late_issue]`: all
descriptive fields, the timestamp included, come from the first
sighting. -/
def first_seen_entry : RepoData :=
  { repo_info :=
      { full_name := "o/r"
        html_url := "https://github.com/o/r"
        description := ""
        pushed_at := "2024-01-01"
        fork := false }
    issues_count := 2
    sample_issue := some "u1" }

/-- A concrete issue for the C7 amended-claim witness. -/
def w7_issue : Issue :=
  { repository_url := some "a/b", updated_at := some "s", html_url := none }

/-- The aggregate built from `[w7_issue]`. -/
def w7_entry : RepoData :=
  { repo_info :=
      { full_name := "a/b"
        html_url := "https://github.com/a/b"
        description := ""
        pushed_at := "s"
        fork := false }
    issues_count := 1
    sample_issue := none }

/-- An issue for the end-to-end scenario, owned by repository
`o/r<j>`. -/
def mk_issue (j : Nat) : Issue :=
  { repository_url := some ("o/r" ++ toString j), updated_at := some "", html_url := none }

/-- Scenario page 1: 100 items spread over 60 distinct repositories. -/
def page1 : List Issue :=
  (List.range 100).map (fun i => mk_issue (i % 60))

/-- Scenario page 2: 40 items spread over 10 new repositories. -/
def page2 : List Issue :=
  (List.range 40).map (fun i => mk_issue (60 + i % 10))

/-- The endpoint of the end-to-end scenario: a full page 1, a 40-item
page 2, and empty pages beyond. -/
def scenario_resp (n : Nat) : PageResp :=
  if n = 1 then .ok page1 else if n = 2 then .ok page2 else .ok []

/-- An endpoint whose every page request fails with status 500. -/
def always_err (_ : Nat) : PageResp :=
  .err 500

/-- An issue with a repository URL of a single path segment, for the C8
witness. -/
def bad_url_issue : Issue :=
  { repository_url := some "nosegments", updated_at := none, html_url := none }

/-- A well-formed issue for the C8 witness. -/
def good_url_issue : Issue :=
  { repository_url := some "x/a/b", updated_at := none, html_url := none }

/-- C5: for every non-empty label list, the label clause is a quoted
clause built from the first label alone, whatever the rest of the list
is. -/
theorem C5_label_uses_first_only (l : String) (rest : List String) :
    build_label_query (l :: rest) = "label:\"" ++ l ++ "\"" ∧
    build_label_query (l :: rest) = build_label_query [l] :=
  ⟨rfl, rfl⟩

/-- C10: with an empty label list the label clause is not omitted but
defaults to `label:"good first issue"`, and the built query parts still
carry exactly that clause in the label position (index 2). -/
theorem C10_default_label_clause (langs : List String) (today days : Nat) (terms : String) :
    build_label_query [] = "label:\"good first issue\"" ∧
    (query_parts langs today days [] terms)[2]? = some "label:\"good first issue\"" := by
  refine ⟨rfl, ?_⟩
  unfold query_parts base_parts
  split
  · split <;> rfl
  · split
    · split <;> rfl
    · split <;> rfl

/-- C4: the built query has no language clause for zero selected
languages, a single equality clause for one language, and one
parenthesized OR-group of N equality clauses for N > 1 languages. -/
theorem C4_language_clause (today days : Nat) (labels : List String) (terms : String) :
    (query_parts [] today days labels terms = base_parts today days labels terms) ∧
    (∀ l, query_parts [l] today days labels terms
        = base_parts today days labels terms ++ ["language:" ++ l]) ∧
    (∀ l1 l2 ls,
      query_parts (l1 :: l2 :: ls) today days labels terms
          = base_parts today days labels terms
            ++ ["(" ++ String.intercalate " OR "
                  ((l1 :: l2 :: ls).map (fun lang => "language:" ++ lang)) ++ ")"]
        ∧ ((l1 :: l2 :: ls).map (fun lang => "language:" ++ lang)).length
            = (l1 :: l2 :: ls).length) := by
  refine ⟨rfl, fun l => rfl, fun l1 l2 ls => ⟨?_, by simp⟩⟩
  unfold query_parts
  rw [if_neg (by simp), if_neg (by simp)]

/-- C6 counterexample: the claim says the free-text terms are appended
verbatim (unchanged), but the code strips surrounding whitespace first,
so a terms string with a leading space already breaks the claimed
equality. -/
theorem C6_counterexample :
    ¬ (∀ (languages : List String) (today days : Nat) (labels : List String) (terms : String),
        build_query languages today days labels terms
          = spec_fixed_order_query languages today days labels
              (if py_strip terms ≠ "" then [terms] else [])) := by
  intro h
  exact absurd (h [] 0 0 [] " x") (by decide)

/-- C6 amended: the built query is the fixed-order combination of the
open-issue status tokens, the quoted label clause, the updated-after
clause from UTC-now minus the day count, the free-text terms stripped of
surrounding whitespace (otherwise unchanged), and the language
clause. -/
theorem C6_fixed_order (languages : List String) (today days : Nat) (labels : List String) (terms : String) :
    build_query languages today days labels terms
      = spec_fixed_order_query languages today days labels
          (if py_strip terms ≠ "" then [py_strip terms] else []) := by
  unfold build_query query_parts base_parts spec_fixed_order_query
  match languages with
  | [] => by_cases hs : py_strip terms = "" <;> simp [hs]
  | [l] => by_cases hs : py_strip terms = "" <;> simp [hs]
  | l1 :: l2 :: ls =>
    rw [if_neg (by simp), if_neg (by simp)]
    by_cases hs : py_strip terms = "" <;> simp [hs]

/-- A list with at least two elements decomposes as some front part
followed by its last two elements, which are the ones the parsing code
reads by index. -/
theorem exists_last_two :
    ∀ (ps : List String), 2 ≤ ps.length →
      ∃ front a b, ps = front ++ [a, b] ∧
        ps.getD (ps.length - 2) "" = a ∧ ps.getD (ps.length - 1) "" = b
  | [], h => by simp at h
  | [_], h => by simp at h
  | [x, y], _ => ⟨[], x, y, rfl, rfl, rfl⟩
  | x :: y :: z :: tl, _ => by
    obtain ⟨front, a, b, h1, h2, h3⟩ := exists_last_two (y :: z :: tl) (by simp)
    refine ⟨x :: front, a, b, by simp [h1], ?_, ?_⟩
    · have hl : (x :: y :: z :: tl).length - 2 = ((y :: z :: tl).length - 2) + 1 := by
        simp
      rw [hl, List.getD_cons_succ, h2]
    · have hl : (x :: y :: z :: tl).length - 1 = ((y :: z :: tl).length - 1) + 1 := by
        simp
      rw [hl, List.getD_cons_succ, h3]

/-- C8: a record whose repository URL is missing, empty, or splits into
fewer than two segments is skipped without touching the dict (and, the
step being a total function, without failing); any other record is keyed
by the last two path segments of its URL as owner and name. -/
theorem C8_malformed_skipped (d : ReposDict) (i : Issue) :
    ((i.repository_url = none ∨ i.repository_url = some "" ∨
        (∃ url, i.repository_url = some url ∧ (split_on_slash url).length < 2)) →
      process_issue d i = d) ∧
    (∀ url, i.repository_url = some url → url ≠ "" → 2 ≤ (split_on_slash url).length →
      ∃ front owner nm, split_on_slash url = front ++ [owner, nm] ∧
        issue_full_name i = some (owner ++ "/" ++ nm)) := by
  constructor
  · intro h
    have hnone : issue_full_name i = none := by
      rcases h with h | h | ⟨url, hu, hlen⟩
      · simp [issue_full_name, h]
      · simp [issue_full_name, h]
      · by_cases hne : url = ""
        · simp [issue_full_name, hu, hne]
        · simp [issue_full_name, hu, hne, parse_full_name]
          omega
    unfold process_issue
    rw [hnone]
  · intro url hu hne hlen
    obtain ⟨front, owner, nm, h1, h2, h3⟩ := exists_last_two (split_on_slash url) hlen
    refine ⟨front, owner, nm, h1, ?_⟩
    simp only [List.getD_eq_getElem?_getD] at h2 h3
    simp [issue_full_name, hu, hne, parse_full_name, hlen, h2, h3]

/-- C8 witness: a single-segment URL is skipped; a three-segment URL is
keyed by its last two segments. -/
theorem C8_malformed_skipped_witness :
    process_issue [] bad_url_issue = [] ∧
    ∃ front owner nm, split_on_slash "x/a/b" = front ++ [owner, nm] ∧
      issue_full_name good_url_issue = some (owner ++ "/" ++ nm) :=
  ⟨(C8_malformed_skipped [] bad_url_issue).1
      (Or.inr (Or.inr ⟨"nosegments", rfl, by decide⟩)),
    (C8_malformed_skipped [] good_url_issue).2 "x/a/b" rfl (by decide) (by decide)⟩

/-- Inserting into a list permutes consing onto it. -/
theorem insert_desc_perm (x : ResultRow) (s : List ResultRow) :
    List.Perm (insert_desc x s) (x :: s) := by
  induction s with
  | nil => simp [insert_desc]
  | cons y ys ih =>
    unfold insert_desc
    split
    · exact (ih.cons y).trans (List.Perm.swap x y ys)
    · exact List.Perm.refl _

/-- The sort permutes its input. -/
theorem sort_results_perm (rows : List ResultRow) :
    List.Perm (sort_results rows) rows := by
  induction rows with
  | nil => simp [sort_results]
  | cons x rest ih =>
    exact (insert_desc_perm x (sort_results rest)).trans (ih.cons x)

/-- Insertion preserves sortedness by descending count. -/
theorem insert_desc_sorted (x : ResultRow) (s : List ResultRow)
    (hs : s.Pairwise (fun a b => b.beginner_issues_count ≤ a.beginner_issues_count)) :
    (insert_desc x s).Pairwise (fun a b => b.beginner_issues_count ≤ a.beginner_issues_count) := by
  induction s with
  | nil => simp [insert_desc]
  | cons y ys ih =>
    rw [List.pairwise_cons] at hs
    unfold insert_desc
    split
    · rename_i hlt
      rw [List.pairwise_cons]
      refine ⟨?_, ih hs.2⟩
      intro z hz
      rcases List.mem_cons.mp ((insert_desc_perm x ys).mem_iff.mp hz) with rfl | hz2
      · omega
      · exact hs.1 z hz2
    · rename_i hge
      rw [List.pairwise_cons]
      refine ⟨?_, List.pairwise_cons.mpr hs⟩
      intro z hz
      rcases List.mem_cons.mp hz with rfl | hz2
      · omega
      · have := hs.1 z hz2; omega

/-- The sort output is sorted by descending count. -/
theorem sort_results_sorted (rows : List ResultRow) :
    (sort_results rows).Pairwise (fun a b => b.beginner_issues_count ≤ a.beginner_issues_count) := by
  induction rows with
  | nil => simp [sort_results]
  | cons x rest ih => exact insert_desc_sorted x (sort_results rest) ih

/-- The entries with any fixed count are preserved, in order, by an
insertion: the inserted row only jumps over strictly larger counts. -/
theorem filter_insert_desc (x : ResultRow) (s : List ResultRow) (c : Nat) :
    (insert_desc x s).filter (fun r => r.beginner_issues_count == c)
      = if x.beginner_issues_count = c
        then x :: s.filter (fun r => r.beginner_issues_count == c)
        else s.filter (fun r => r.beginner_issues_count == c) := by
  induction s with
  | nil =>
    by_cases hx : x.beginner_issues_count = c <;> simp [insert_desc, hx]
  | cons y ys ih =>
    unfold insert_desc
    split
    · rename_i hlt
      by_cases hx : x.beginner_issues_count = c
      · have hy : ¬ y.beginner_issues_count = c := by omega
        simp [List.filter_cons, beq_iff_eq, hx, hy, ih]
      · by_cases hy : y.beginner_issues_count = c <;>
          simp [List.filter_cons, beq_iff_eq, hx, hy, ih]
    · by_cases hx : x.beginner_issues_count = c <;>
        by_cases hy : y.beginner_issues_count = c <;>
          simp [List.filter_cons, beq_iff_eq, hx, hy]

/-- Stability: for every count, the sort preserves the subsequence of
rows having that count. -/
theorem sort_results_filter (rows : List ResultRow) (c : Nat) :
    (sort_results rows).filter (fun r => r.beginner_issues_count == c)
      = rows.filter (fun r => r.beginner_issues_count == c) := by
  induction rows with
  | nil => simp [sort_results]
  | cons x rest ih =>
    show (insert_desc x (sort_results rest)).filter _ = _
    rw [filter_insert_desc]
    by_cases hx : x.beginner_issues_count = c <;>
      simp [List.filter_cons, beq_iff_eq, hx, ih]

/-- C3: the ranking step is a permutation of its input, sorted by
descending match count, and stable: the subsequence of rows with any
fixed count is unchanged, and any two rows with equal counts keep their
input order. -/
theorem C3_rank_stable_desc (rows : List ResultRow) :
    (sort_results rows).Pairwise (fun a b => b.beginner_issues_count ≤ a.beginner_issues_count) ∧
    List.Perm (sort_results rows) rows ∧
    (∀ c, (sort_results rows).filter (fun r => r.beginner_issues_count == c)
        = rows.filter (fun r => r.beginner_issues_count == c)) ∧
    (∀ a b, a.beginner_issues_count = b.beginner_issues_count →
      [a, b].Sublist rows → [a, b].Sublist (sort_results rows)) := by
  refine ⟨sort_results_sorted rows, sort_results_perm rows, sort_results_filter rows, ?_⟩
  intro a b hab hsub
  have hfa : [a, b].filter (fun r => r.beginner_issues_count == a.beginner_issues_count)
      = [a, b] := by
    simp [List.filter_cons, beq_iff_eq, hab]
  have h1 := hsub.filter (fun r => r.beginner_issues_count == a.beginner_issues_count)
  rw [hfa, ← sort_results_filter rows a.beginner_issues_count] at h1
  exact h1.trans (List.filter_sublist _)

/-- C3 witness: counts [3, 5, 5, 1] rank as the two 5-count rows in
their input order, then 3, then 1. -/
theorem C3_rank_stable_desc_witness :
    sort_results [sample_row "a" 3, sample_row "b" 5, sample_row "c" 5, sample_row "d" 1]
      = [sample_row "b" 5, sample_row "c" 5, sample_row "a" 3, sample_row "d" 1] ∧
    [sample_row "b" 5, sample_row "c" 5].Sublist
      (sort_results [sample_row "a" 3, sample_row "b" 5, sample_row "c" 5, sample_row "d" 1]) :=
  ⟨by decide,
    (C3_rank_stable_desc [sample_row "a" 3, sample_row "b" 5, sample_row "c" 5, sample_row "d" 1]).2.2.2
      (sample_row "b" 5) (sample_row "c" 5) rfl (by decide)⟩

/-- An unusable record leaves the dict untouched. -/
theorem process_issue_none (d : ReposDict) (i : Issue)
    (h : issue_full_name i = none) : process_issue d i = d := by
  unfold process_issue
  rw [h]

/-- Unfolding `incr_count` over a cons cell. -/
theorem incr_count_cons (p : String × RepoData) (d : ReposDict) (k : String) :
    incr_count (p :: d) k
      = (if p.1 = k then (p.1, { p.2 with issues_count := p.2.issues_count + 1 }) else p)
          :: incr_count d k :=
  rfl

/-- Bumping the counter under key `k` changes only the entry at `k`. -/
theorem lookup_incr_count (d : ReposDict) (k name : String) :
    (incr_count d k).lookup name
      = if name = k
        then (d.lookup name).map (fun e => { e with issues_count := e.issues_count + 1 })
        else d.lookup name := by
  induction d with
  | nil => simp [incr_count]
  | cons p d ih =>
    obtain ⟨a, e⟩ := p
    by_cases hak : a = k
    · by_cases hna : name = a
      · subst hna
        simp [incr_count_cons, List.lookup_cons, hak]
      · have hnk : name ≠ k := by rw [← hak]; exact hna
        simp [incr_count_cons, List.lookup_cons, hak, hna, hnk, ih,
          beq_false_of_ne hnk]
    · by_cases hna : name = a
      · subst hna
        simp [incr_count_cons, List.lookup_cons, hak]
      · simp [incr_count_cons, List.lookup_cons, hak, hna, ih,
          beq_false_of_ne hna]

/-- Processing a record keyed under `full` leaves every other key
unchanged. -/
theorem lookup_process_issue_other (d : ReposDict) (i : Issue) (full name : String)
    (hf : issue_full_name i = some full) (hne : name ≠ full) :
    (process_issue d i).lookup name = d.lookup name := by
  unfold process_issue
  rw [hf]
  by_cases hmem : (d.lookup full).isSome
  · simp only [hmem, if_true]
    rw [lookup_incr_count, if_neg hne]
  · simp only [hmem, Bool.false_eq_true, if_false]
    rw [lookup_incr_count, if_neg hne, List.lookup_append]
    have hsingle : (([(full, fresh_data full i)] : ReposDict).lookup name) = none := by
      simp [List.lookup_cons, beq_false_of_ne hne]
    rw [hsingle]
    cases d.lookup name <;> rfl

/-- Processing a record for an already known repository bumps that
counter of that entry and changes nothing else about it. -/
theorem lookup_process_issue_self_some (d : ReposDict) (i : Issue) (full : String) (e : RepoData)
    (hf : issue_full_name i = some full) (he : d.lookup full = some e) :
    (process_issue d i).lookup full
      = some { e with issues_count := e.issues_count + 1 } := by
  unfold process_issue
  rw [hf]
  have hmem : (d.lookup full).isSome = true := by rw [he]; rfl
  simp only [hmem, if_true]
  rw [lookup_incr_count, if_pos rfl, he]
  rfl

/-- Processing a record for a yet unseen repository appends a fresh
aggregate with counter 1. -/
theorem lookup_process_issue_self_none (d : ReposDict) (i : Issue) (full : String)
    (hf : issue_full_name i = some full) (he : d.lookup full = none) :
    (process_issue d i).lookup full
      = some { fresh_data full i with issues_count := 1 } := by
  unfold process_issue
  rw [hf]
  have hmem : (d.lookup full).isSome = false := by rw [he]; rfl
  simp only [hmem, Bool.false_eq_true, if_false]
  rw [lookup_incr_count, if_pos rfl, List.lookup_append, he]
  simp [List.lookup_cons, fresh_data]

/-- Bumping a counter does not change the key sequence. -/
theorem dict_keys_incr_count (d : ReposDict) (k : String) :
    dict_keys (incr_count d k) = dict_keys d := by
  unfold dict_keys incr_count
  rw [List.map_map]
  apply List.map_congr_left
  intro p _
  by_cases hpk : p.1 = k <;> simp [hpk]

/-- Processing one record keeps the keys duplicate-free. -/
theorem dict_keys_process_issue_nodup (d : ReposDict) (i : Issue)
    (h : (dict_keys d).Nodup) : (dict_keys (process_issue d i)).Nodup := by
  unfold process_issue
  cases hf : issue_full_name i with
  | none => exact h
  | some full =>
    dsimp only
    by_cases hmem : (d.lookup full).isSome
    · simp only [hmem, if_true]
      rw [dict_keys_incr_count]
      exact h
    · simp only [hmem, Bool.false_eq_true, if_false]
      rw [dict_keys_incr_count]
      have hnone : d.lookup full = none := by
        cases hl : d.lookup full with
        | none => rfl
        | some e => rw [hl] at hmem; simp at hmem
      have hnotin : full ∉ dict_keys d := by
        rw [List.lookup_eq_none_iff] at hnone
        intro hmem2
        obtain ⟨p, hp, hfst⟩ := List.mem_map.mp hmem2
        have := hnone p hp
        simp [← hfst] at this
      unfold dict_keys
      rw [List.map_append]
      simp [List.nodup_append]
      exact ⟨h, fun x hx => hnotin (List.mem_map_of_mem Prod.fst hx)⟩

/-- The keys of the aggregate stay duplicate-free over any record
sequence. -/
theorem nodup_keys_aggregate_all :
    ∀ (issues : List Issue) (d : ReposDict),
      (dict_keys d).Nodup → (dict_keys (aggregate_all issues d)).Nodup
  | [], _, h => h
  | i :: rest, d, h =>
    nodup_keys_aggregate_all rest (process_issue d i) (dict_keys_process_issue_nodup d i h)

/-- With duplicate-free keys, membership determines the lookup. -/
theorem lookup_of_mem_nodup (d : ReposDict) (h : (dict_keys d).Nodup)
    (p : String × RepoData) (hp : p ∈ d) : d.lookup p.1 = some p.2 := by
  induction d with
  | nil => simp at hp
  | cons q rest ih =>
    have hkeys : dict_keys (q :: rest) = q.1 :: dict_keys rest := rfl
    rw [hkeys, List.nodup_cons] at h
    rcases List.mem_cons.mp hp with rfl | hp2
    · exact List.lookup_cons_self
    · have hne : p.1 ≠ q.1 := by
        intro hq2
        exact h.1 (hq2 ▸ List.mem_map_of_mem Prod.fst hp2)
      rw [List.lookup_cons]
      simp only [beq_false_of_ne hne]
      exact ih h.2 hp2

/-- Closed form of the aggregation: the entry under `name` carries the
running count plus the number of matching records, and a fresh entry is
built from the first matching record. -/
theorem lookup_aggregate_all :
    ∀ (issues : List Issue) (d : ReposDict) (name : String),
      (aggregate_all issues d).lookup name
        = match d.lookup name with
          | some e => some { e with issues_count := e.issues_count + count_matching issues name }
          | none =>
            match issues.find? (fun j => issue_full_name j == some name) with
            | some i => some { fresh_data name i with issues_count := count_matching issues name }
            | none => none
  | [], d, name => by
    show d.lookup name = _
    cases hd : d.lookup name with
    | none => simp [count_matching]
    | some e => simp [count_matching]
  | i :: rest, d, name => by
    show (aggregate_all rest (process_issue d i)).lookup name = _
    rw [lookup_aggregate_all rest (process_issue d i) name]
    cases hf : issue_full_name i with
    | none =>
      rw [process_issue_none d i hf]
      have hcm : count_matching (i :: rest) name = count_matching rest name := by
        simp [count_matching, List.countP_cons, hf]
      have hfind : (i :: rest).find? (fun j => issue_full_name j == some name)
          = rest.find? (fun j => issue_full_name j == some name) := by
        apply List.find?_cons_of_neg
        simp [hf]
      rw [hcm, hfind]
    | some full =>
      by_cases hname : full = name
      · subst hname
        have hcm : count_matching (i :: rest) full = count_matching rest full + 1 := by
          simp [count_matching, List.countP_cons, hf]
        have hfind : (i :: rest).find? (fun j => issue_full_name j == some full) = some i :=
          List.find?_cons_of_pos _ (by simp [hf])
        rw [hcm, hfind]
        cases hd : d.lookup full with
        | some e =>
          rw [lookup_process_issue_self_some d i full e hf hd]
          have harith : e.issues_count + 1 + count_matching rest full
              = e.issues_count + (count_matching rest full + 1) := by omega
          show some _ = some _
          rw [← harith]
        | none =>
          rw [lookup_process_issue_self_none d i full hf hd]
          have harith : 1 + count_matching rest full = count_matching rest full + 1 := by omega
          show some _ = some _
          rw [← harith]
      · have hnf : name ≠ full := fun h => hname h.symm
        rw [lookup_process_issue_other d i full name hf hnf]
        have hcm : count_matching (i :: rest) name = count_matching rest name := by
          simp [count_matching, List.countP_cons, hf, hname]
        have hfind : (i :: rest).find? (fun j => issue_full_name j == some name)
            = rest.find? (fun j => issue_full_name j == some name) := by
          apply List.find?_cons_of_neg
          simp [hf, hname]
        rw [hcm, hfind]

/-- C2: over any record sequence the aggregate has at most one entry
per full name, and the counter of each entry equals the number of records
seen for that name, hence is at least 1. -/
theorem C2_unique_and_counted (issues : List Issue) :
    (dict_keys (repos_dict_of issues)).Nodup ∧
    ∀ p ∈ repos_dict_of issues,
      p.2.issues_count = count_matching issues p.1 ∧ 1 ≤ p.2.issues_count := by
  have hnd : (dict_keys (repos_dict_of issues)).Nodup :=
    nodup_keys_aggregate_all issues [] (by simp [dict_keys])
  refine ⟨hnd, ?_⟩
  intro p hp
  have hl : (repos_dict_of issues).lookup p.1 = some p.2 :=
    lookup_of_mem_nodup _ hnd p hp
  have hcf := lookup_aggregate_all issues [] p.1
  unfold repos_dict_of at hl
  rw [hl] at hcf
  simp only [List.lookup_nil] at hcf
  cases hfind : issues.find? (fun j => issue_full_name j == some p.1) with
  | none => rw [hfind] at hcf; cases hcf
  | some i =>
    rw [hfind] at hcf
    have hcount : p.2.issues_count = count_matching issues p.1 := by
      have := congrArg (fun o => (o.map RepoData.issues_count)) hcf
      simpa using this
    refine ⟨hcount, ?_⟩
    rw [hcount]
    have hpi := List.find?_some hfind
    have hmem : i ∈ issues := List.mem_of_find?_eq_some hfind
    have : 0 < count_matching issues p.1 := by
      unfold count_matching
      rw [List.countP_pos_iff]
      exact ⟨i, hmem, hpi⟩
    omega

/-- C2 witness: feeding the same record twice yields one entry for its
repository whose counter is exactly 2. -/
theorem C2_unique_and_counted_witness :
    ("o/r", dup_entry) ∈ repos_dict_of [dup_issue, dup_issue] ∧
    (dup_entry.issues_count = count_matching [dup_issue, dup_issue] "o/r" ∧
      1 ≤ dup_entry.issues_count) :=
  ⟨by decide,
    (C2_unique_and_counted [dup_issue, dup_issue]).2 ("o/r", dup_entry) (by decide)⟩

/-- C7 counterexample: the claim that the stored timestamp of an aggregate is
the one of the most recently seen issue fails: two sightings of `o/r`
with different update stamps leave the first stamp in place. -/
theorem C7_counterexample :
    ¬ (∀ (issues : List Issue) (name : String) (e : RepoData),
        (repos_dict_of issues).lookup name = some e →
        ∀ i, (issues.filter (fun j => issue_full_name j == some name)).getLast? = some i →
          e.repo_info.pushed_at = i.updated_at.getD "") := by
  intro h
  have := h [early_issue, late_issue] "o/r" first_seen_entry (by decide) late_issue (by decide)
  revert this
  decide

/-- C7 amended: the stored timestamp of an aggregate is the update stamp of
the FIRST seen issue for that repository; later sightings do not change
it. -/
theorem C7_first_seen_timestamp (issues : List Issue) (name : String) (e : RepoData)
    (h : (repos_dict_of issues).lookup name = some e) :
    ∃ i, issues.find? (fun j => issue_full_name j == some name) = some i ∧
      e.repo_info.pushed_at = i.updated_at.getD "" := by
  have hcf := lookup_aggregate_all issues [] name
  unfold repos_dict_of at h
  rw [h] at hcf
  simp only [List.lookup_nil] at hcf
  cases hfind : issues.find? (fun j => issue_full_name j == some name) with
  | none => rw [hfind] at hcf; cases hcf
  | some i =>
    rw [hfind] at hcf
    refine ⟨i, rfl, ?_⟩
    have := congrArg (fun o => o.map (fun e => e.repo_info.pushed_at)) hcf
    simpa [fresh_data] using this

/-- C7 amended witness: one record with stamp `s` yields an aggregate
stamped `s`, found as the first matching record. -/
theorem C7_first_seen_timestamp_witness :
    ∃ i, [w7_issue].find? (fun j => issue_full_name j == some "a/b") = some i ∧
      w7_entry.repo_info.pushed_at = i.updated_at.getD "" :=
  C7_first_seen_timestamp [w7_issue] "a/b" w7_entry (by decide)

/-- A run of one page is the singleton. -/
theorem pageRun_one (p : Nat) : pageRun p 1 = [p] := by
  simp [pageRun, List.range_succ]

/-- A run splits off its first page. -/
theorem pageRun_succ (p k : Nat) : pageRun p (k + 1) = p :: pageRun (p + 1) k := by
  unfold pageRun
  rw [List.range_succ_eq_map, List.map_cons, List.map_map]
  refine congrArg (_ :: ·) ?_
  apply List.map_congr_left
  intro i _
  simp [Function.comp]
  omega

/-- Membership in a run is an interval condition. -/
theorem mem_pageRun {p k n : Nat} : n ∈ pageRun p k ↔ p ≤ n ∧ n < p + k := by
  unfold pageRun
  simp only [List.mem_map, List.mem_range]
  constructor
  · rintro ⟨i, hi, rfl⟩
    omega
  · rintro ⟨h1, h2⟩
    exact ⟨n - p, by omega, by omega⟩

/-- A run has no duplicate pages. -/
theorem pageRun_nodup (p k : Nat) : (pageRun p k).Nodup := by
  unfold pageRun
  exact (List.nodup_range k).map (fun a b h => by omega)

/-- Normal form of the pagination loop: with positive fuel it requests a
nonempty run of consecutive pages; every page before the last answered
with a full page; if the loop stopped with fuel left, the last page was
short or failed; the loop raises exactly when the last requested page
failed; and an ok result is the aggregation of the items of all requested
pages, the final page included. -/
theorem search_loop_nf (resp : Nat → PageResp) :
    ∀ (fuel p : Nat) (acc : ReposDict), 1 ≤ fuel →
      ∃ k, 1 ≤ k ∧ k ≤ fuel ∧
        (search_loop resp p fuel acc).1 = pageRun p k ∧
        (∀ j, j + 1 < k → ∃ items, resp (p + j) = PageResp.ok items ∧ per_page ≤ items.length) ∧
        (k < fuel →
          (∃ items, resp (p + k - 1) = PageResp.ok items ∧ items.length < per_page) ∨
          (∃ c, resp (p + k - 1) = PageResp.err c)) ∧
        (∀ c, (search_loop resp p fuel acc).2 = Except.error c ↔ resp (p + k - 1) = PageResp.err c) ∧
        (∀ d, (search_loop resp p fuel acc).2 = Except.ok d →
          d = aggregate_all (((pageRun p k).map (page_items resp)).flatten) acc)
  | 0, p, acc, h => by omega
  | fuel + 1, p, acc, _ => by
    cases hr : resp p with
    | err c =>
      refine ⟨1, le_refl 1, by omega, ?_, ?_, ?_, ?_, ?_⟩
      · simp [search_loop, hr, pageRun_one]
      · intro j hj; omega
      · intro _
        exact Or.inr ⟨c, by simpa using hr⟩
      · intro c2
        simp [search_loop, hr]
      · intro d hd
        simp [search_loop, hr] at hd
    | ok items =>
      by_cases hshort : items.length < per_page
      · refine ⟨1, le_refl 1, by omega, ?_, ?_, ?_, ?_, ?_⟩
        · simp [search_loop, hr, hshort, pageRun_one]
        · intro j hj; omega
        · intro _
          exact Or.inl ⟨items, by simpa using hr, hshort⟩
        · intro c2
          simp [search_loop, hr, hshort]
        · intro d hd
          simp [search_loop, hr, hshort] at hd
          rw [← hd]
          simp [pageRun_one, page_items, hr]
      · match fuel with
        | 0 =>
          refine ⟨1, le_refl 1, le_refl 1, ?_, ?_, ?_, ?_, ?_⟩
          · simp [search_loop, hr, hshort, pageRun_one]
          · intro j hj; omega
          · intro h1; omega
          · intro c2
            simp [search_loop, hr, hshort]
          · intro d hd
            simp [search_loop, hr, hshort] at hd
            rw [← hd]
            simp [pageRun_one, page_items, hr]
        | fuel + 1 =>
          obtain ⟨k, hk1, hkf, hpages, hfull, hstop, herr, hok⟩ :=
            search_loop_nf resp (fuel + 1) (p + 1) (aggregate_all items acc) (by omega)
          have hstep : search_loop resp p (fuel + 1 + 1) acc
              = ((p :: (search_loop resp (p + 1) (fuel + 1) (aggregate_all items acc)).1),
                (search_loop resp (p + 1) (fuel + 1) (aggregate_all items acc)).2) := by
            simp [search_loop, hr, hshort]
          refine ⟨k + 1, by omega, by omega, ?_, ?_, ?_, ?_, ?_⟩
          · rw [hstep, pageRun_succ]
            simpa using hpages
          · intro j hj
            match j with
            | 0 => exact ⟨items, by simpa using hr, by omega⟩
            | j + 1 =>
              have hj2 := hfull j (by omega)
              have harith : p + 1 + j = p + (j + 1) := by omega
              rw [harith] at hj2
              exact hj2
          · intro hklt
            have harith : p + 1 + k - 1 = p + (k + 1) - 1 := by omega
            rw [harith] at hstop
            exact hstop (by omega)
          · intro c2
            have harith : p + 1 + k - 1 = p + (k + 1) - 1 := by omega
            rw [harith] at herr
            rw [hstep]
            exact herr c2
          · intro d hd
            rw [hstep] at hd
            have hagg := hok d hd
            rw [hagg, pageRun_succ]
            rw [List.map_cons, List.flatten_cons]
            unfold aggregate_all
            rw [List.foldl_append]
            have hpi : page_items resp p = items := by simp [page_items, hr]
            rw [hpi]

/-- C1: page 1 is requested first; page n+1 is requested exactly when
page n was requested, fewer than 10 pages had been requested, and page n
came back with exactly 100 items (page responses never exceed the page
size); and a successful search aggregates the items of every requested
page, the final short page included. -/
theorem C1_pagination (resp : Nat → PageResp)
    (hle : ∀ n items, resp n = PageResp.ok items → items.length ≤ per_page) :
    (search10 resp).1.head? = some 1 ∧
    (∀ n, 1 ≤ n →
      ((n + 1) ∈ (search10 resp).1 ↔
        n ∈ (search10 resp).1 ∧ n < 10 ∧
        ∃ items, resp n = PageResp.ok items ∧ items.length = per_page)) ∧
    (∀ d, (search10 resp).2 = Except.ok d →
      d = repos_dict_of (((search10 resp).1.map (page_items resp)).flatten)) := by
  obtain ⟨k, hk1, hk10, hpages, hfull, hstop, herr, hok⟩ :=
    search_loop_nf resp 10 1 [] (by omega)
  have hs : search10 resp = search_loop resp 1 10 [] := rfl
  rw [hs]
  refine ⟨?_, ?_, ?_⟩
  · rw [hpages]
    cases k with
    | zero => omega
    | succ k2 => rw [pageRun_succ]; rfl
  · intro n hn
    rw [hpages]
    simp only [mem_pageRun]
    constructor
    · rintro ⟨h1, h2⟩
      refine ⟨⟨by omega, by omega⟩, by omega, ?_⟩
      obtain ⟨items, hri, hlen⟩ := hfull (n - 1) (by omega)
      have harith : 1 + (n - 1) = n := by omega
      rw [harith] at hri
      exact ⟨items, hri, by have := hle n items hri; omega⟩
    · rintro ⟨⟨h1, h2⟩, hn10, items, hri, hlen⟩
      refine ⟨by omega, ?_⟩
      by_contra hcon
      have hnk : n = k := by omega
      subst hnk
      have hstop2 := hstop (by omega)
      have harith : 1 + n - 1 = n := by omega
      rw [harith] at hstop2
      rcases hstop2 with ⟨items2, hri2, hlen2⟩ | ⟨c, hric⟩
      · rw [hri] at hri2
        cases hri2
        omega
      · rw [hri] at hric
        cases hric
  · intro d hd
    have hagg := hok d hd
    rw [hpages]
    exact hagg

set_option maxRecDepth 100000 in
/-- C1 witness: the end-to-end scenario: a full page 1 over 60 distinct
repositories and a 40-item page 2 over 10 new ones; pages never exceed
the page size, the fetch stops after page 2, and 70 aggregates result. -/
theorem C1_pagination_witness :
    (∀ n items, scenario_resp n = PageResp.ok items → items.length ≤ per_page) ∧
    (search10 scenario_resp).1.head? = some 1 ∧
    (search10 scenario_resp).1 = [1, 2] ∧
    (match (search10 scenario_resp).2 with
      | Except.ok d => d.length
      | Except.error _ => 0) = 70 := by
  have hle : ∀ n items, scenario_resp n = PageResp.ok items → items.length ≤ per_page := by
    intro n items h
    unfold scenario_resp at h
    split at h
    · cases h; decide
    · split at h
      · cases h; decide
      · cases h; decide
  exact ⟨hle, (C1_pagination scenario_resp hle).1, by decide, by decide⟩

/-- C9: if a requested page fails, the search raises that failure: no
later page is requested, no page is ever requested twice, and the
aggregates built so far are discarded in favour of the error. -/
theorem C9_error_fatal (resp : Nat → PageResp) (m c : Nat)
    (hm : m ∈ (search10 resp).1) (hr : resp m = PageResp.err c) :
    (search10 resp).2 = Except.error c ∧
    (∀ n ∈ (search10 resp).1, n ≤ m) ∧
    (search10 resp).1.Nodup := by
  obtain ⟨k, hk1, hk10, hpages, hfull, hstop, herr, hok⟩ :=
    search_loop_nf resp 10 1 [] (by omega)
  have hs : search10 resp = search_loop resp 1 10 [] := rfl
  rw [hs] at hm ⊢
  rw [hpages] at hm ⊢
  have hmk : m = k := by
    rw [mem_pageRun] at hm
    by_contra hne
    have hmlt : m < k := by omega
    obtain ⟨items, hri, _⟩ := hfull (m - 1) (by omega)
    have harith : 1 + (m - 1) = m := by omega
    rw [harith] at hri
    rw [hr] at hri
    cases hri
  subst hmk
  refine ⟨?_, ?_, pageRun_nodup 1 m⟩
  · have harith : 1 + m - 1 = m := by omega
    exact (herr c).mpr (by rw [harith]; exact hr)
  · intro n hn
    rw [mem_pageRun] at hm hn
    omega

/-- C9 witness: an endpoint failing with 500 on every page makes the
search raise 500 after requesting only page 1. -/
theorem C9_error_fatal_witness :
    1 ∈ (search10 always_err).1 ∧ always_err 1 = PageResp.err 500 ∧
    (search10 always_err).2 = Except.error 500 :=
  ⟨by decide, rfl, (C9_error_fatal always_err 1 500 (by decide) rfl).1⟩
